import Mathlib

/-!
# MoveRandomly: subjects walking to random destinations

A shallow embedding of `Source/MyProject/MoveRandomly.cpp`, `MoveRandomly.h` and
`MainStructs.h`.

* The scalar type of the code, `float`, is a parameter `α` of the definitions, which use
  only its arithmetic and its comparison.  The theorems take `α` to be a linearly ordered
  field (exact arithmetic: no rounding, no infinities, no NaN); `Binary32` is a model of
  `float` with overflow, infinities and NaN, used where overflow matters.  The square
  root of the engine is a parameter `sqrt : α → α`.
* `FMath::RandRange` is a parameter `gen : Nat → α → α → α`: `gen k a b` is the value
  returned by the `k`-th call of the run when it is called with the arguments `a`, `b`.
  The number of calls made so far is part of the state.
* The subject/trait runtime (subjects, filters, chains, `Operate`) is not part of the
  sources; it is modelled from the specification, with snapshot chains.
* `Super::BeginPlay` and `Super::Tick` are engine calls and are left out.  The two debug
  mechanics of `Tick` draw points; they are passes whose callback leaves the state as it is.
-/

namespace MoveRandomly

/-! ## Engine vectors -/

/-- Modelled from the spec: the engine vector type `FVector` is absent from the sources;
three scalar components. -/
structure FVector (α : Type) where
  X : α
  Y : α
  Z : α
deriving DecidableEq

namespace FVector

variable {α : Type} [Add α] [Sub α] [Mul α] [Inv α]

/-- Modelled from the spec: `operator+` of the absent engine type, componentwise. -/
def add (a b : FVector α) : FVector α := ⟨a.X + b.X, a.Y + b.Y, a.Z + b.Z⟩

/-- Modelled from the spec: `operator-` of the absent engine type, componentwise. -/
def sub (a b : FVector α) : FVector α := ⟨a.X - b.X, a.Y - b.Y, a.Z - b.Z⟩

/-- Modelled from the spec: `operator*=` with a scalar of the absent engine type. -/
def scale (v : FVector α) (k : α) : FVector α := ⟨v.X * k, v.Y * k, v.Z * k⟩

/-- Modelled from the spec: squared length of the absent engine type. -/
def SizeSquared (v : FVector α) : α := v.X * v.X + v.Y * v.Y + v.Z * v.Z

/-- Modelled from the spec: `FVector::Dist` of the absent engine type, the Euclidean
distance ("compute distance to destination"). -/
def Dist (sqrt : α → α) (a b : FVector α) : α := sqrt (SizeSquared (sub b a))

/-- Modelled from the spec: `FVector::Normalize` of the absent engine type, the vector
scaled by the inverse of its length ("the unit vector toward Destination").  In a field,
where the inverse of zero is zero, the zero vector stays the zero vector; a tolerance of
the engine for very short vectors is not modelled. -/
def Normalize (sqrt : α → α) (v : FVector α) : FVector α :=
  scale v (sqrt (SizeSquared v))⁻¹

end FVector

/-! ## Traits (`MainStructs.h`) -/

/-- A subject's position. -/
structure FSubjectPosition (α : Type) where
  Value : FVector α
deriving DecidableEq

/-- A subject's move target. -/
structure FDestination (α : Type) where
  Value : FVector α
deriving DecidableEq

/-- The marker of a subject that has finished pathing; it holds no data. -/
structure FFinishedMoving where
deriving DecidableEq

/-! ## The subject runtime -/

/-- Modelled from the spec: identifiers of the three trait types of `MainStructs.h`
(the `TraitTypeId` of the absent runtime). -/
inductive TraitType where
  | SubjectPosition
  | Destination
  | FinishedMoving
deriving DecidableEq

/-- Modelled from the spec: an entity of the absent runtime, a mapping from trait type to
at most one trait instance of that type. -/
structure Subject (α : Type) where
  Position : Option (FSubjectPosition α)
  Destination : Option (FDestination α)
  FinishedMoving : Option FFinishedMoving
deriving DecidableEq

/-- Modelled from the spec: `has(entity, TraitTypeId)` of the absent runtime. -/
def Subject.has {α : Type} (s : Subject α) : TraitType → Bool
  | .SubjectPosition => s.Position.isSome
  | .Destination => s.Destination.isSome
  | .FinishedMoving => s.FinishedMoving.isSome

/-- Modelled from the spec: the handle of a subject of the absent runtime.  Subjects are
never despawned by this program, so a handle is the index of the subject in spawn order. -/
abbrev FSubjectHandle := Nat

/-- Modelled from the spec: the world state of the absent runtime (the subjects with their
traits), together with the number of `RandRange` calls made so far. -/
structure Mechanism (α : Type) where
  Subjects : List (Subject α)
  RandCalls : Nat
deriving DecidableEq

/-- Modelled from the spec: `FFilter` of the absent runtime, the pair of sets
(Include, Exclude) of trait types. -/
structure FFilter where
  Include : List TraitType
  Exclude : List TraitType
deriving DecidableEq

/-- Modelled from the spec: `FFilter::Make<Ts...>()` of the absent runtime, the filter that
includes the listed trait types and excludes none. -/
def FFilter.Make (ts : List TraitType) : FFilter := ⟨ts, []⟩

/-- Modelled from the spec: "an entity matches a Filter iff it holds every trait in Include
and none in Exclude". -/
def FFilter.Matches {α : Type} (f : FFilter) (s : Subject α) : Bool :=
  f.Include.all s.has && !f.Exclude.any s.has

/-- Modelled from the spec: a chain of the absent runtime, the snapshot of the handles that
matched a filter, in spawn order. -/
abbrev FChain := List FSubjectHandle

/-- Modelled from the spec: `Enchain(Filter)` of the absent runtime.  The set of subjects
visited in one pass is fixed when the pass starts. -/
def Enchain {α : Type} (f : FFilter) (st : Mechanism α) : FChain :=
  (List.range st.Subjects.length).filter fun h =>
    match st.Subjects[h]? with
    | some s => f.Matches s
    | none => false

/-- Modelled from the spec: `Chain->Operate(callback)` of the absent runtime.  The callback
runs for the handles of the snapshot, one at a time, in snapshot order; it is handed the
handle and the traits it asks for (`read`), as they are when it is invoked.  A handle that
is no subject or a requested trait that is absent is a fatal invariant breach (`none`).
The state type `σ` is any type from which the subjects can be seen. -/
def Operate {α σ τ : Type} (subjects : σ → List (Subject α)) (read : Subject α → Option τ)
    (chain : FChain) (callback : FSubjectHandle → τ → σ → σ) (s : σ) : Option σ :=
  chain.foldlM (fun s h =>
    match (subjects s)[h]? with
    | some sub =>
      match read sub with
      | some t => some (callback h t s)
      | none => none
    | none => none) s

/-- Modelled from the spec: `SpawnSubject()` of the absent runtime, "allocates a fresh,
currently-valid handle with empty trait set". -/
def SpawnSubject {α : Type} (st : Mechanism α) : FSubjectHandle × Mechanism α :=
  (st.Subjects.length, { st with Subjects := st.Subjects ++ [⟨none, none, none⟩] })

/-- Modelled from the spec: `SetTrait` of the absent runtime for a position, "inserts or
overwrites the trait of that type on that entity".  The handles this program passes are
always subjects; for a handle that is no subject the state is left as it is. -/
def SetTraitPosition {α : Type} (h : FSubjectHandle) (t : FSubjectPosition α)
    (st : Mechanism α) : Mechanism α :=
  { st with Subjects := st.Subjects.modify (fun s => { s with Position := some t }) h }

/-- Modelled from the spec: `SetTrait` of the absent runtime for a destination. -/
def SetTraitDestination {α : Type} (h : FSubjectHandle) (t : FDestination α)
    (st : Mechanism α) : Mechanism α :=
  { st with Subjects := st.Subjects.modify (fun s => { s with Destination := some t }) h }

/-- Modelled from the spec: `SetTrait` of the absent runtime for the marker trait. -/
def SetTraitFinishedMoving {α : Type} (h : FSubjectHandle) (t : FFinishedMoving)
    (st : Mechanism α) : Mechanism α :=
  { st with Subjects := st.Subjects.modify (fun s => { s with FinishedMoving := some t }) h }

/-- Modelled from the spec: `RemoveTrait<FFinishedMoving>()` of the absent runtime,
"deletes the trait if present; no-op if absent". -/
def RemoveTraitFinishedMoving {α : Type} (h : FSubjectHandle)
    (st : Mechanism α) : Mechanism α :=
  { st with Subjects := st.Subjects.modify (fun s => { s with FinishedMoving := none }) h }

/-- Modelled from the spec: `FMath::RandRange` of the absent engine, the next value of the
generator for the two arguments; the call is counted. -/
def RandRange {α : Type} (gen : Nat → α → α → α) (a b : α) (st : Mechanism α) :
    α × Mechanism α :=
  (gen st.RandCalls a b, { st with RandCalls := st.RandCalls + 1 })

/-! ## The actor (`MoveRandomly.h`, `MoveRandomly.cpp`) -/

/-- The tunables of `AMoveRandomly`. -/
structure AMoveRandomly (α : Type) where
  MinDistanceFroMDestination : α
  MoveSpeed : α
  RandomWidth : α
  NumSubjects : Int
deriving DecidableEq

section Defaults

variable {α : Type} [LinearOrderedField α]

/-- The values the header gives the tunables. -/
def AMoveRandomly.defaults : AMoveRandomly α := ⟨10, 100, 250, 10⟩

end Defaults

section Actor

variable {α : Type} [Zero α] [Neg α] [Add α] [Sub α] [Mul α] [Inv α] [LT α]
  [DecidableRel (fun a b : α => a < b)]

/-- The expression `FVector(RandRange(-RandomWidth, RandomWidth),
RandRange(-RandomWidth, RandomWidth), 0)`; the draw for X is taken first. -/
def randomVector (gen : Nat → α → α → α) (self : AMoveRandomly α) (st : Mechanism α) :
    FVector α × Mechanism α :=
  let (x, st) := RandRange gen (-self.RandomWidth) self.RandomWidth st
  let (y, st) := RandRange gen (-self.RandomWidth) self.RandomWidth st
  (⟨x, y, 0⟩, st)

/-- The body of the spawn loop of `BeginPlay`. -/
def BeginPlay.body (gen : Nat → α → α → α) (self : AMoveRandomly α) (st : Mechanism α) :
    Mechanism α :=
  let (NewSubject, st) := SpawnSubject st
  let (v, st) := randomVector gen self st
  let NewPosition : FSubjectPosition α := ⟨v⟩
  let (v, st) := randomVector gen self st
  let NewDestination : FDestination α := ⟨v⟩
  let st := SetTraitPosition NewSubject NewPosition st
  SetTraitDestination NewSubject NewDestination st

/-- The loop `for (int i = 0; i < NumSubjects; i++)` with `n` iterations left. -/
def BeginPlay.loop (gen : Nat → α → α → α) (self : AMoveRandomly α) :
    Nat → Mechanism α → Mechanism α
  | 0, st => st
  | n + 1, st => BeginPlay.loop gen self n (BeginPlay.body gen self st)

/-- `AMoveRandomly::BeginPlay`. -/
def BeginPlay (gen : Nat → α → α → α) (self : AMoveRandomly α) (st : Mechanism α) :
    Mechanism α :=
  BeginPlay.loop gen self self.NumSubjects.toNat st

/-- The callback of the first mechanic of `Tick`: move toward the destination, or flag the
subject as finished when it is within the threshold.  The arithmetic is that of the scalar
type: the product `DeltaSeconds * MoveSpeed` is exact in a field and can overflow to an
infinity in `Binary32`. -/
def Tick.moveCallback (sqrt : α → α) (self : AMoveRandomly α) (DeltaSeconds : α)
    (CurrentSubject : FSubjectHandle) (t : FSubjectPosition α × FDestination α)
    (st : Mechanism α) : Mechanism α :=
  let CurrentPos := t.1
  let Destination := t.2
  let DistFromDestination := FVector.Dist sqrt CurrentPos.Value Destination.Value
  if DistFromDestination > self.MinDistanceFroMDestination then
    let MoveVector := FVector.sub Destination.Value CurrentPos.Value
    let MoveVector := FVector.Normalize sqrt MoveVector
    let MoveVector := FVector.scale MoveVector (DeltaSeconds * self.MoveSpeed)
    let UpdatedPos : FSubjectPosition α := ⟨FVector.add CurrentPos.Value MoveVector⟩
    SetTraitPosition CurrentSubject UpdatedPos st
  else
    let FinishedMove : FFinishedMoving := ⟨⟩
    SetTraitFinishedMoving CurrentSubject FinishedMove st

/-- The callback of the second mechanic of `Tick`: a new random destination, and the
marker is removed. -/
def Tick.retargetCallback (gen : Nat → α → α → α) (self : AMoveRandomly α)
    (CurrentSubject : FSubjectHandle) (_ : Unit) (st : Mechanism α) : Mechanism α :=
  let (v, st) := randomVector gen self st
  let NewDestination : FDestination α := ⟨v⟩
  let st := SetTraitDestination CurrentSubject NewDestination st
  RemoveTraitFinishedMoving CurrentSubject st

/-- The traits the callback of the first mechanic asks for. -/
def readPositionDestination (s : Subject α) : Option (FSubjectPosition α × FDestination α) :=
  match s.Position, s.Destination with
  | some p, some d => some (p, d)
  | _, _ => none

/-- A callback of the handle alone asks for no trait. -/
def readNothing (_ : Subject α) : Option Unit := some ()

/-- First mechanic of `Tick`: all subjects with a position and a destination. -/
def Tick.movePass (sqrt : α → α) (self : AMoveRandomly α) (DeltaSeconds : α)
    (st : Mechanism α) : Option (Mechanism α) :=
  let Filter := FFilter.Make [.SubjectPosition, .Destination]
  let Chain := Enchain Filter st
  Operate Mechanism.Subjects readPositionDestination Chain
    (Tick.moveCallback sqrt self DeltaSeconds) st

/-- Second mechanic of `Tick`: all subjects that have finished moving. -/
def Tick.retargetPass (gen : Nat → α → α → α) (self : AMoveRandomly α)
    (st : Mechanism α) : Option (Mechanism α) :=
  let Filter := FFilter.Make [.FinishedMoving]
  let Chain := Enchain Filter st
  Operate Mechanism.Subjects readNothing Chain (Tick.retargetCallback gen self) st

/-- Third mechanic of `Tick`: the destinations are drawn; the state is not changed. -/
def Tick.drawDestinations (st : Mechanism α) : Option (Mechanism α) :=
  let Filter := FFilter.Make [.Destination]
  let Chain := Enchain Filter st
  Operate Mechanism.Subjects Subject.Destination Chain (fun _ _ st => st) st

/-- Fourth mechanic of `Tick`: the positions are drawn; the state is not changed. -/
def Tick.drawPositions (st : Mechanism α) : Option (Mechanism α) :=
  let Filter := FFilter.Make [.SubjectPosition]
  let Chain := Enchain Filter st
  Operate Mechanism.Subjects Subject.Position Chain (fun _ _ st => st) st

/-- `AMoveRandomly::Tick`: the four mechanics in order. -/
def Tick (sqrt : α → α) (gen : Nat → α → α → α) (self : AMoveRandomly α) (DeltaSeconds : α)
    (st : Mechanism α) : Option (Mechanism α) := do
  let st ← Tick.movePass sqrt self DeltaSeconds st
  let st ← Tick.retargetPass gen self st
  let st ← Tick.drawDestinations st
  Tick.drawPositions st

/-- A run of the actor after `BeginPlay`: one `Tick` for each frame time of the list. -/
def runTicks (sqrt : α → α) (gen : Nat → α → α → α) (self : AMoveRandomly α) :
    List α → Mechanism α → Option (Mechanism α)
  | [], st => some st
  | dt :: dts, st => (Tick sqrt gen self dt st).bind (runTicks sqrt gen self dts)

/-- The state of an empty world in which no random number has been drawn. -/
def Mechanism.empty : Mechanism α := ⟨[], 0⟩

/-! ### What the spawn loop and the passes do to one subject

Derived descriptions, used to state the lemmas on `BeginPlay` and on the passes; they are
proved equal to what the functions above compute. -/

/-- The subject that one iteration of the spawn loop of `BeginPlay` creates when `k`
random numbers were drawn before. -/
def spawnedSubject (gen : Nat → α → α → α) (self : AMoveRandomly α) (k : Nat) :
    Subject α :=
  ⟨some ⟨⟨gen k (-self.RandomWidth) self.RandomWidth,
      gen (k + 1) (-self.RandomWidth) self.RandomWidth, 0⟩⟩,
    some ⟨⟨gen (k + 2) (-self.RandomWidth) self.RandomWidth,
      gen (k + 3) (-self.RandomWidth) self.RandomWidth, 0⟩⟩,
    none⟩

/-- What the callback of the first mechanic does to the subject it visits, when it is
handed the position `p` and the destination `d`. -/
def movedSubject (sqrt : α → α) (self : AMoveRandomly α) (DeltaSeconds : α)
    (p : FSubjectPosition α) (d : FDestination α) (s : Subject α) : Subject α :=
  if FVector.Dist sqrt p.Value d.Value > self.MinDistanceFroMDestination then
    { s with Position := some ⟨FVector.add p.Value (FVector.scale
        (FVector.Normalize sqrt (FVector.sub d.Value p.Value))
        (DeltaSeconds * self.MoveSpeed))⟩ }
  else
    { s with FinishedMoving := some ⟨⟩ }

/-- What the first mechanic does to a subject: subjects that lack a position or a
destination are not visited. -/
def moveSubject (sqrt : α → α) (self : AMoveRandomly α) (DeltaSeconds : α)
    (s : Subject α) : Subject α :=
  match s.Position, s.Destination with
  | some p, some d => movedSubject sqrt self DeltaSeconds p d s
  | _, _ => s

/-- What the callback of the second mechanic does to the subject it visits, when `k`
random numbers were drawn before. -/
def retargetedSubject (gen : Nat → α → α → α) (self : AMoveRandomly α) (k : Nat)
    (s : Subject α) : Subject α :=
  { s with
    Destination := some ⟨⟨gen k (-self.RandomWidth) self.RandomWidth,
      gen (k + 1) (-self.RandomWidth) self.RandomWidth, 0⟩⟩,
    FinishedMoving := none }

end Actor

/-! ## Observing a pass -/

section Observing

variable {α : Type} [Zero α] [Neg α]

/-- Modelled from the spec: `has(entity, TraitTypeId)` of the absent runtime through a
handle; a handle that is no subject holds nothing. -/
def Mechanism.Has (st : Mechanism α) (h : FSubjectHandle) (t : TraitType) : Bool :=
  match st.Subjects[h]? with
  | some s => s.has t
  | none => false

/-- The callback of the second mechanic of `Tick`, run on a state paired with a record of
invocations: it does what `Tick.retargetCallback` does and appends the handle it was
invoked on to the record. -/
def Tick.retargetCallbackLogged (gen : Nat → α → α → α) (self : AMoveRandomly α)
    (CurrentSubject : FSubjectHandle) (u : Unit) (s : Mechanism α × List FSubjectHandle) :
    Mechanism α × List FSubjectHandle :=
  (Tick.retargetCallback gen self CurrentSubject u s.1, s.2 ++ [CurrentSubject])

/-- The second mechanic of `Tick` with the record of the invocations of its callback. -/
def Tick.retargetPassLogged (gen : Nat → α → α → α) (self : AMoveRandomly α)
    (st : Mechanism α) : Option (Mechanism α × List FSubjectHandle) :=
  let Filter := FFilter.Make [.FinishedMoving]
  let Chain := Enchain Filter st
  Operate (fun s => s.1.Subjects) readNothing Chain
    (Tick.retargetCallbackLogged gen self) (st, [])

end Observing

section Bounds

variable {α : Type} [LinearOrderedField α]

/-- The spawn bounds of a vector for a half width `w`: X and Y between `-w` and `w`, and
Z equal to 0. -/
def FVector.InSquare (w : α) (v : FVector α) : Prop :=
  (-w ≤ v.X ∧ v.X ≤ w) ∧ (-w ≤ v.Y ∧ v.Y ≤ w) ∧ v.Z = 0

end Bounds

section States

variable {α : Type} [Zero α]

/-- The state `Moving` of the state machine of a subject: a position and a destination
are set and `FinishedMoving` is not. -/
def Subject.Moving (s : Subject α) : Bool :=
  s.Position.isSome && s.Destination.isSome && s.FinishedMoving.isNone

end States

/-! ## The type `float` with overflow -/

/-- The C++ type `float` (IEEE 754 binary32) where overflow matters: a finite value, an
infinity with its sign, or NaN.  Finite values are rationals and finite results are kept
exact: rounding, signed zeros and underflow are not modelled. -/
inductive Binary32 where
  | finite (q : ℚ)
  | inf (negative : Bool)
  | nan
deriving DecidableEq

namespace Binary32

/-- The magnitude from which an exact result rounds to an infinity: `2^128 - 2^103`, half a
unit in the last place above the largest finite value `2^128 - 2^104`. -/
def overflowBound : ℚ := 2 ^ 128 - 2 ^ 103

/-- The value of an exact result: itself, or the infinity of its sign when its magnitude
reaches `overflowBound`. -/
def ofRat (q : ℚ) : Binary32 :=
  if overflowBound ≤ q then inf false
  else if q ≤ -overflowBound then inf true
  else finite q

/-- Negation. -/
def neg : Binary32 → Binary32
  | finite q => finite (-q)
  | inf s => inf (!s)
  | nan => nan

/-- Addition: infinities of opposite signs give NaN. -/
def add : Binary32 → Binary32 → Binary32
  | finite a, finite b => ofRat (a + b)
  | finite _, inf s => inf s
  | inf s, finite _ => inf s
  | inf s, inf t => if s = t then inf s else nan
  | nan, _ => nan
  | _, nan => nan

/-- Subtraction. -/
def sub (a b : Binary32) : Binary32 := add a (neg b)

/-- Multiplication: zero times an infinity gives NaN. -/
def mul : Binary32 → Binary32 → Binary32
  | finite a, finite b => ofRat (a * b)
  | finite a, inf s => if a = 0 then nan else inf (xor s (decide (a < 0)))
  | inf s, finite b => if b = 0 then nan else inf (xor s (decide (b < 0)))
  | inf s, inf t => inf (xor s t)
  | nan, _ => nan
  | _, nan => nan

/-- The inverse `1 / x`: the inverse of zero is the positive infinity (zeros carry no
sign here), the inverse of an infinity is zero. -/
def inv : Binary32 → Binary32
  | finite q => if q = 0 then inf false else ofRat q⁻¹
  | inf _ => finite 0
  | nan => nan

/-- The comparison `<`: false whenever an operand is NaN. -/
def lt : Binary32 → Binary32 → Bool
  | finite a, finite b => decide (a < b)
  | finite _, inf s => !s
  | inf s, finite _ => s
  | inf s, inf t => s && !t
  | nan, _ => false
  | _, nan => false

/-- The square root: NaN for a negative operand.  On a finite operand it is `Rat.sqrt`,
which is exact on squares of rationals (elsewhere it is the quotient of the integer square
roots of numerator and denominator, not the rounded root). -/
def sqrt : Binary32 → Binary32
  | finite q => if q < 0 then nan else finite (Rat.sqrt q)
  | inf s => if s then nan else inf false
  | nan => nan

instance instZero : Zero Binary32 := ⟨finite 0⟩

instance instNeg : Neg Binary32 := ⟨neg⟩

instance instAdd : Add Binary32 := ⟨add⟩

instance instSub : Sub Binary32 := ⟨sub⟩

instance instMul : Mul Binary32 := ⟨mul⟩

instance instInv : Inv Binary32 := ⟨inv⟩

instance instLT : LT Binary32 := ⟨fun a b => lt a b = true⟩

instance instDecidableLT : DecidableRel (fun a b : Binary32 => a < b) :=
  fun a b => inferInstanceAs (Decidable (lt a b = true))

end Binary32

/-! ## Example states

Concrete states over the rationals, with the computable square root `Rat.sqrt` (exact on
squares of rationals). -/

namespace Example

/-- The tunables of the header: threshold 10, speed 100, width 250. -/
def actor : AMoveRandomly ℚ := AMoveRandomly.defaults

/-- A generator that always returns its first argument, a value between the two. -/
def gen : Nat → ℚ → ℚ → ℚ := fun _ a _ => a

/-- One subject at the origin whose destination is 100 away along X. -/
def start : Mechanism ℚ :=
  ⟨[⟨some ⟨⟨0, 0, 0⟩⟩, some ⟨⟨100, 0, 0⟩⟩, none⟩], 0⟩

/-- The subject of `start` after it has reached its destination. -/
def arrived : Mechanism ℚ :=
  ⟨[⟨some ⟨⟨100, 0, 0⟩⟩, some ⟨⟨100, 0, 0⟩⟩, none⟩], 0⟩

/-- The tunables of the header with a negative width and a single subject. -/
def negativeWidth : AMoveRandomly ℚ := ⟨10, 100, -5, 1⟩

end Example

section Oscillation

variable {α : Type} [LinearOrderedField α]

/-- One subject whose destination is (50, 0, 0) and whose position is the origin when `n`
is even and (100, 0, 0) when `n` is odd; no random number has been drawn. -/
def Example.oscillating (n : Nat) : Mechanism α :=
  ⟨[⟨some ⟨⟨if n % 2 = 0 then 0 else 100, 0, 0⟩⟩, some ⟨⟨50, 0, 0⟩⟩, none⟩], 0⟩

end Oscillation

/-! ### An overflowing move step -/

namespace Example

end Example

/-! ## Lemmas on the runtime -/

section Runtime
variable {α : Type}

theorem Enchain_nodup (f : FFilter) (st : Mechanism α) : (Enchain f st).Nodup :=
  List.Nodup.filter _ (List.nodup_range _)

theorem mem_Enchain (f : FFilter) (st : Mechanism α) (h : FSubjectHandle) :
    h ∈ Enchain f st ↔ ∃ s, st.Subjects[h]? = some s ∧ f.Matches s = true := by
  unfold Enchain
  rw [List.mem_filter, List.mem_range]
  constructor
  · rintro ⟨hlt, hm⟩
    rw [List.getElem?_eq_getElem hlt] at hm
    exact ⟨_, List.getElem?_eq_getElem hlt, hm⟩
  · rintro ⟨s, hs, hm⟩
    have hlt : h < st.Subjects.length := (List.getElem?_eq_some.mp hs).1
    refine ⟨hlt, ?_⟩
    rw [hs]
    exact hm

theorem Operate_nil {σ τ : Type} (subjects : σ → List (Subject α))
    (read : Subject α → Option τ) (callback : FSubjectHandle → τ → σ → σ) (s : σ) :
    Operate subjects read [] callback s = some s := rfl

theorem Operate_cons {σ τ : Type} (subjects : σ → List (Subject α))
    (read : Subject α → Option τ) (callback : FSubjectHandle → τ → σ → σ) (s : σ)
    (a : FSubjectHandle) (chain : FChain) (sub : Subject α) (t : τ)
    (hsub : (subjects s)[a]? = some sub) (hread : read sub = some t) :
    Operate subjects read (a :: chain) callback s
      = Operate subjects read chain callback (callback a t s) := by
  unfold Operate
  rw [List.foldlM_cons, hsub]
  simp only [hread]
  rfl

theorem Operate_local {σ τ : Type} (subjects : σ → List (Subject α))
    (read : Subject α → Option τ) (callback : FSubjectHandle → τ → σ → σ)
    (upd : FSubjectHandle → τ → σ → Subject α → Subject α) (R : σ → σ → Prop)
    (hloc : ∀ h t s, subjects (callback h t s) = (subjects s).modify (upd h t s) h)
    (hrefl : ∀ s, R s s) (htrans : ∀ a b c, R a b → R b c → R a c)
    (hR : ∀ h t s, R s (callback h t s)) :
    ∀ (chain : FChain) (s : σ), chain.Nodup →
      (∀ h ∈ chain, ∃ sub t, (subjects s)[h]? = some sub ∧ read sub = some t) →
      ∃ s', Operate subjects read chain callback s = some s' ∧ R s s' ∧
        (subjects s').length = (subjects s).length ∧
        (∀ i, i ∉ chain → (subjects s')[i]? = (subjects s)[i]?) ∧
        (∀ i, i ∈ chain → ∃ sub t si, (subjects s)[i]? = some sub ∧ read sub = some t ∧
            R s si ∧ R (callback i t si) s' ∧
            (subjects s')[i]? = some (upd i t si sub)) := by
  intro chain
  induction chain with
  | nil =>
    intro s _ _
    exact ⟨s, Operate_nil _ _ _ _, hrefl s, rfl, fun _ _ => rfl, fun i hi => by simp at hi⟩
  | cons a L ih =>
    intro s hnd hrd
    have hnd' := List.nodup_cons.mp hnd
    obtain ⟨sub, t, hsub, hread⟩ := hrd a (List.mem_cons_self a L)
    have hother : ∀ i, i ≠ a → (subjects (callback a t s))[i]? = (subjects s)[i]? := by
      intro i hia
      rw [hloc, List.getElem?_modify_ne _ _ (Ne.symm hia)]
    have hrd' : ∀ h ∈ L, ∃ sub' t', (subjects (callback a t s))[h]? = some sub' ∧
        read sub' = some t' := by
      intro h hh
      have hne : h ≠ a := fun e => hnd'.1 (e ▸ hh)
      rw [hother h hne]
      exact hrd h (List.mem_cons_of_mem a hh)
    obtain ⟨s', hop, hRs', hlen, hout, hin⟩ := ih (callback a t s) hnd'.2 hrd'
    refine ⟨s', ?_, htrans _ _ _ (hR a t s) hRs', ?_, ?_, ?_⟩
    · rw [Operate_cons subjects read callback s a L sub t hsub hread]
      exact hop
    · rw [hlen, hloc, List.length_modify]
    · intro i hi
      have hia : i ≠ a := fun e => hi (e ▸ List.mem_cons_self a L)
      have hiL : i ∉ L := fun e => hi (List.mem_cons_of_mem a e)
      rw [hout i hiL, hother i hia]
    · intro i hi
      rcases List.mem_cons.mp hi with rfl | hiL
      · refine ⟨sub, t, s, hsub, hread, hrefl s, hRs', ?_⟩
        rw [hout i hnd'.1, hloc, List.getElem?_modify_eq, hsub]
        rfl
      · have hia : i ≠ a := fun e => hnd'.1 (e ▸ hiL)
        obtain ⟨sub', t', si, h1, h2, h3, h4, h5⟩ := hin i hiL
        rw [hother i hia] at h1
        exact ⟨sub', t', si, h1, h2, htrans _ _ _ (hR a t s) h3, h4, h5⟩

theorem Operate_noop {τ : Type} (read : Subject α → Option τ) :
    ∀ (chain : FChain) (st : Mechanism α),
      (∀ h ∈ chain, ∃ sub t, st.Subjects[h]? = some sub ∧ read sub = some t) →
      Operate Mechanism.Subjects read chain (fun _ _ st => st) st = some st := by
  intro chain
  induction chain with
  | nil => intro st _; rfl
  | cons a L ih =>
    intro st hrd
    obtain ⟨sub, t, hsub, hread⟩ := hrd a (List.mem_cons_self a L)
    rw [Operate_cons Mechanism.Subjects read _ st a L sub t hsub hread]
    exact ih st (fun h hh => hrd h (List.mem_cons_of_mem a hh))

theorem Matches_move (s : Subject α) :
    (FFilter.Make [.SubjectPosition, .Destination]).Matches s
      = (s.Position.isSome && s.Destination.isSome) := by
  simp [FFilter.Matches, FFilter.Make, Subject.has]

theorem Matches_finished (s : Subject α) :
    (FFilter.Make [.FinishedMoving]).Matches s = s.FinishedMoving.isSome := by
  simp [FFilter.Matches, FFilter.Make, Subject.has]

theorem Matches_destination (s : Subject α) :
    (FFilter.Make [.Destination]).Matches s = s.Destination.isSome := by
  simp [FFilter.Matches, FFilter.Make, Subject.has]

theorem Matches_position (s : Subject α) :
    (FFilter.Make [.SubjectPosition]).Matches s = s.Position.isSome := by
  simp [FFilter.Matches, FFilter.Make, Subject.has]

theorem drawDestinations_eq (st : Mechanism α) : Tick.drawDestinations st = some st := by
  unfold Tick.drawDestinations
  apply Operate_noop
  intro h hh
  obtain ⟨sub, hsub, hm⟩ := (mem_Enchain _ _ _).mp hh
  rw [Matches_destination] at hm
  obtain ⟨d, hd⟩ := Option.isSome_iff_exists.mp hm
  exact ⟨sub, d, hsub, hd⟩

theorem drawPositions_eq (st : Mechanism α) : Tick.drawPositions st = some st := by
  unfold Tick.drawPositions
  apply Operate_noop
  intro h hh
  obtain ⟨sub, hsub, hm⟩ := (mem_Enchain _ _ _).mp hh
  rw [Matches_position] at hm
  obtain ⟨d, hd⟩ := Option.isSome_iff_exists.mp hm
  exact ⟨sub, d, hsub, hd⟩

theorem Enchain_single (f : FFilter) (sub : Subject α) (c : Nat) :
    Enchain f ⟨[sub], c⟩ = if f.Matches sub = true then [0] else [] := by
  simp [Enchain, List.range_succ, List.filter_cons]

end Runtime

/-! ## Lemmas on the passes of `Tick` -/

section MovePass
variable {α : Type} [Add α] [Sub α] [Mul α] [Inv α] [LT α]
  [DecidableRel (fun a b : α => a < b)]

theorem moveCallback_local (sqrt : α → α) (self : AMoveRandomly α) (dt : α)
    (h : FSubjectHandle) (t : FSubjectPosition α × FDestination α) (st : Mechanism α) :
    (Tick.moveCallback sqrt self dt h t st).Subjects
      = st.Subjects.modify (fun sub => movedSubject sqrt self dt t.1 t.2 sub) h := by
  unfold Tick.moveCallback movedSubject
  by_cases hc : FVector.Dist sqrt t.1.Value t.2.Value > self.MinDistanceFroMDestination
  · simp only [hc, if_true]
    rfl
  · simp only [hc, if_false]
    rfl

theorem moveCallback_RandCalls (sqrt : α → α) (self : AMoveRandomly α) (dt : α)
    (h : FSubjectHandle) (t : FSubjectPosition α × FDestination α) (st : Mechanism α) :
    (Tick.moveCallback sqrt self dt h t st).RandCalls = st.RandCalls := by
  unfold Tick.moveCallback
  by_cases hc : FVector.Dist sqrt t.1.Value t.2.Value > self.MinDistanceFroMDestination
  · simp only [hc, if_true]
    rfl
  · simp only [hc, if_false]
    rfl

theorem movePass_spec (sqrt : α → α) (self : AMoveRandomly α) (dt : α) (st : Mechanism α) :
    ∃ st' : Mechanism α, Tick.movePass sqrt self dt st = some st' ∧
      st'.RandCalls = st.RandCalls ∧
      st'.Subjects.length = st.Subjects.length ∧
      ∀ (i : Nat) (sub : Subject α), st.Subjects[i]? = some sub →
        st'.Subjects[i]? = some (moveSubject sqrt self dt sub) := by
  have hrd : ∀ h ∈ Enchain (FFilter.Make [.SubjectPosition, .Destination]) st,
      ∃ sub t, st.Subjects[h]? = some sub ∧ readPositionDestination sub = some t := by
    intro h hh
    obtain ⟨sub, hsub, hm⟩ := (mem_Enchain _ _ _).mp hh
    rw [Matches_move] at hm
    rcases sub with ⟨_ | p, _ | d, f⟩ <;> simp at hm
    exact ⟨_, (p, d), hsub, rfl⟩
  obtain ⟨st', hop, hR, hlen, hout, hin⟩ :=
    Operate_local Mechanism.Subjects readPositionDestination
      (Tick.moveCallback sqrt self dt)
      (fun _ t _ sub => movedSubject sqrt self dt t.1 t.2 sub)
      (fun a b => b.RandCalls = a.RandCalls)
      (moveCallback_local sqrt self dt) (fun _ => rfl)
      (fun _ _ _ h1 h2 => h2.trans h1) (moveCallback_RandCalls sqrt self dt)
      _ st (Enchain_nodup _ st) hrd
  refine ⟨st', hop, hR, hlen, ?_⟩
  intro i sub hsub
  by_cases hi : i ∈ Enchain (FFilter.Make [.SubjectPosition, .Destination]) st
  · obtain ⟨sub', t, si, h1, h2, _, _, h5⟩ := hin i hi
    rw [hsub] at h1
    cases h1
    rw [h5]
    rcases sub with ⟨_ | p, _ | d, f⟩ <;> simp [readPositionDestination] at h2
    subst h2
    rfl
  · rw [hout i hi, hsub]
    have hm : ¬ (FFilter.Make [.SubjectPosition, .Destination]).Matches sub = true :=
      fun hm => hi ((mem_Enchain _ _ _).mpr ⟨sub, hsub, hm⟩)
    rw [Matches_move] at hm
    rcases sub with ⟨_ | p, _ | d, f⟩ <;> simp at hm <;> rfl

theorem movePass_single (sqrt : α → α) (self : AMoveRandomly α) (dt : α)
    (sub : Subject α) (c : Nat) :
    Tick.movePass sqrt self dt ⟨[sub], c⟩ = some ⟨[moveSubject sqrt self dt sub], c⟩ := by
  obtain ⟨st', h1, hc, hl, hs⟩ := movePass_spec sqrt self dt ⟨[sub], c⟩
  rw [h1]
  have h0 := hs 0 sub rfl
  obtain ⟨subs, c'⟩ := st'
  simp only at hc hl h0
  subst hc
  match subs, hl, h0 with
  | [x], _, h0 =>
    simp only [List.getElem?_cons_zero, Option.some.injEq] at h0
    rw [h0]

end MovePass

section RetargetPass
variable {α : Type} [Zero α] [Neg α]

theorem retargetCallback_local (gen : Nat → α → α → α) (self : AMoveRandomly α)
    (h : FSubjectHandle) (u : Unit) (st : Mechanism α) :
    (Tick.retargetCallback gen self h u st).Subjects
      = st.Subjects.modify (retargetedSubject gen self st.RandCalls) h := by
  unfold Tick.retargetCallback
  simp only [randomVector, RandRange, SetTraitDestination, RemoveTraitFinishedMoving]
  rw [List.modify_modify_eq]
  rfl

theorem retargetCallback_RandCalls (gen : Nat → α → α → α) (self : AMoveRandomly α)
    (h : FSubjectHandle) (u : Unit) (st : Mechanism α) :
    (Tick.retargetCallback gen self h u st).RandCalls = st.RandCalls + 2 := rfl

theorem retargetPass_spec (gen : Nat → α → α → α) (self : AMoveRandomly α)
    (st : Mechanism α) :
    ∃ st' : Mechanism α, Tick.retargetPass gen self st = some st' ∧
      st.RandCalls ≤ st'.RandCalls ∧
      st'.Subjects.length = st.Subjects.length ∧
      ∀ (i : Nat) (sub : Subject α), st.Subjects[i]? = some sub →
        (sub.FinishedMoving = none → st'.Subjects[i]? = some sub) ∧
        (sub.FinishedMoving ≠ none → ∃ k, st.RandCalls ≤ k ∧ k + 2 ≤ st'.RandCalls ∧
          st'.Subjects[i]? = some (retargetedSubject gen self k sub)) := by
  have hrd : ∀ h ∈ Enchain (FFilter.Make [.FinishedMoving]) st,
      ∃ sub t, st.Subjects[h]? = some sub ∧ readNothing sub = some t := by
    intro h hh
    obtain ⟨sub, hsub, _⟩ := (mem_Enchain _ _ _).mp hh
    exact ⟨sub, (), hsub, rfl⟩
  obtain ⟨st', hop, hR, hlen, hout, hin⟩ :=
    Operate_local Mechanism.Subjects readNothing
      (Tick.retargetCallback gen self)
      (fun _ _ s sub => retargetedSubject gen self s.RandCalls sub)
      (fun a b => a.RandCalls ≤ b.RandCalls)
      (retargetCallback_local gen self) (fun _ => Nat.le_refl _)
      (fun _ _ _ h1 h2 => Nat.le_trans h1 h2)
      (fun h t s => Nat.le_add_right s.RandCalls 2)
      _ st (Enchain_nodup _ st) hrd
  refine ⟨st', hop, hR, hlen, ?_⟩
  intro i sub hsub
  constructor
  · intro hnone
    have hi : i ∉ Enchain (FFilter.Make [.FinishedMoving]) st := by
      intro hi
      obtain ⟨sub', hsub', hm⟩ := (mem_Enchain _ _ _).mp hi
      rw [hsub] at hsub'
      cases hsub'
      rw [Matches_finished, hnone] at hm
      exact Bool.noConfusion hm
    rw [hout i hi, hsub]
  · intro hsome
    have hi : i ∈ Enchain (FFilter.Make [.FinishedMoving]) st := by
      refine (mem_Enchain _ _ _).mpr ⟨sub, hsub, ?_⟩
      rw [Matches_finished]
      exact Option.isSome_iff_ne_none.mpr hsome
    obtain ⟨sub', t, si, h1, _, h3, h4, h5⟩ := hin i hi
    rw [hsub] at h1
    cases h1
    rw [retargetCallback_RandCalls] at h4
    exact ⟨si.RandCalls, h3, h4, h5⟩

theorem retargetPass_single (gen : Nat → α → α → α) (self : AMoveRandomly α)
    (sub : Subject α) (c : Nat) :
    Tick.retargetPass gen self ⟨[sub], c⟩
      = some (if sub.FinishedMoving = none then ⟨[sub], c⟩
          else ⟨[retargetedSubject gen self c sub], c + 2⟩) := by
  unfold Tick.retargetPass
  simp only [Enchain_single, Matches_finished]
  rcases sub with ⟨p, d, _ | f⟩
  · rfl
  · rfl

end RetargetPass

section WholeTick
variable {α : Type} [Zero α] [Neg α] [Add α] [Sub α] [Mul α] [Inv α] [LT α]
  [DecidableRel (fun a b : α => a < b)]

theorem Tick_eq (sqrt : α → α) (gen : Nat → α → α → α) (self : AMoveRandomly α) (dt : α)
    (st : Mechanism α) :
    Tick sqrt gen self dt st
      = (Tick.movePass sqrt self dt st).bind (Tick.retargetPass gen self) := by
  unfold Tick
  cases h1 : Tick.movePass sqrt self dt st with
  | none => rfl
  | some st1 =>
    cases h2 : Tick.retargetPass gen self st1 with
    | none => simp [h2]
    | some st2 => simp [h2, drawDestinations_eq, drawPositions_eq]

theorem Tick_spec (sqrt : α → α) (gen : Nat → α → α → α) (self : AMoveRandomly α) (dt : α)
    (st : Mechanism α) :
    ∃ st' : Mechanism α, Tick sqrt gen self dt st = some st' ∧
      st.RandCalls ≤ st'.RandCalls ∧
      st'.Subjects.length = st.Subjects.length ∧
      ∀ (i : Nat) (sub : Subject α), st.Subjects[i]? = some sub →
        ((moveSubject sqrt self dt sub).FinishedMoving = none →
          st'.Subjects[i]? = some (moveSubject sqrt self dt sub)) ∧
        ((moveSubject sqrt self dt sub).FinishedMoving ≠ none →
          ∃ k, st.RandCalls ≤ k ∧ k + 2 ≤ st'.RandCalls ∧
            st'.Subjects[i]?
              = some (retargetedSubject gen self k (moveSubject sqrt self dt sub))) := by
  obtain ⟨st1, h1, hc1, hl1, hs1⟩ := movePass_spec sqrt self dt st
  obtain ⟨st2, h2, hc2, hl2, hs2⟩ := retargetPass_spec gen self st1
  refine ⟨st2, ?_, ?_, ?_, ?_⟩
  · rw [Tick_eq, h1]
    exact h2
  · rw [← hc1]
    exact hc2
  · rw [hl2, hl1]
  · intro i sub hsub
    have := hs2 i _ (hs1 i sub hsub)
    rw [hc1] at this
    exact this

theorem Tick_single (sqrt : α → α) (gen : Nat → α → α → α) (self : AMoveRandomly α) (dt : α)
    (sub : Subject α) (c : Nat) :
    Tick sqrt gen self dt ⟨[sub], c⟩
      = some (if (moveSubject sqrt self dt sub).FinishedMoving = none
          then ⟨[moveSubject sqrt self dt sub], c⟩
          else ⟨[retargetedSubject gen self c (moveSubject sqrt self dt sub)], c + 2⟩) := by
  rw [Tick_eq, movePass_single]
  exact retargetPass_single gen self _ c

end WholeTick

/-! ## Evaluation of the examples -/

section Examples

theorem sqrt_sq_rat (q : ℚ) (hq : 0 ≤ q) : Rat.sqrt (q * q) = q := by
  rw [Rat.sqrt_eq, abs_of_nonneg hq]

theorem Dist_start : FVector.Dist Rat.sqrt (⟨0, 0, 0⟩ : FVector ℚ) ⟨100, 0, 0⟩ = 100 := by
  have h : FVector.SizeSquared (FVector.sub (⟨100, 0, 0⟩ : FVector ℚ) ⟨0, 0, 0⟩)
      = 100 * 100 := by
    simp only [FVector.SizeSquared, FVector.sub]
    norm_num
  unfold FVector.Dist
  rw [h]
  exact sqrt_sq_rat 100 (by norm_num)

theorem Dist_self (v : FVector ℚ) : FVector.Dist Rat.sqrt v v = 0 := by
  have h : FVector.SizeSquared (FVector.sub v v) = 0 * 0 := by
    simp only [FVector.SizeSquared, FVector.sub]
    ring
  unfold FVector.Dist
  rw [h]
  exact sqrt_sq_rat 0 (le_refl 0)

theorem moveSubject_start :
    moveSubject Rat.sqrt Example.actor 1 ⟨some ⟨⟨0, 0, 0⟩⟩, some ⟨⟨100, 0, 0⟩⟩, none⟩
      = ⟨some ⟨⟨100, 0, 0⟩⟩, some ⟨⟨100, 0, 0⟩⟩, none⟩ := by
  have hn : FVector.Normalize Rat.sqrt (FVector.sub (⟨100, 0, 0⟩ : FVector ℚ) ⟨0, 0, 0⟩)
      = ⟨1, 0, 0⟩ := by
    have h := Dist_start
    unfold FVector.Dist at h
    unfold FVector.Normalize
    rw [h]
    simp only [FVector.scale, FVector.sub]
    norm_num
  simp only [moveSubject, movedSubject, Dist_start, hn, Example.actor, AMoveRandomly.defaults]
  norm_num [FVector.add, FVector.scale]

theorem Tick_start :
    Tick Rat.sqrt Example.gen Example.actor 1 Example.start = some Example.arrived := by
  unfold Example.start
  rw [Tick_single, moveSubject_start]
  rfl

end Examples

section HasLemmas
variable {α : Type}

theorem Has_finished (st : Mechanism α) (h : FSubjectHandle) :
    st.Has h .FinishedMoving = true ↔ h ∈ Enchain (FFilter.Make [.FinishedMoving]) st := by
  rw [mem_Enchain]
  unfold Mechanism.Has
  cases hsub : st.Subjects[h]? with
  | none => simp
  | some sub => simp [Matches_finished, Subject.has]

end HasLemmas

section Logged
variable {α : Type} [LinearOrderedField α]

theorem Operate_logged (gen : Nat → α → α → α) (self : AMoveRandomly α) :
    ∀ (chain : FChain) (st : Mechanism α) (log : List FSubjectHandle),
      Operate (fun s : Mechanism α × List FSubjectHandle => s.1.Subjects) readNothing chain
          (Tick.retargetCallbackLogged gen self) (st, log)
        = (Operate Mechanism.Subjects readNothing chain
            (Tick.retargetCallback gen self) st).map (fun s => (s, log ++ chain)) := by
  intro chain
  induction chain with
  | nil =>
    intro st log
    simp [Operate_nil]
  | cons a L ih =>
    intro st log
    cases hsub : st.Subjects[a]? with
    | none =>
      unfold Operate
      rw [List.foldlM_cons, List.foldlM_cons]
      simp only [hsub]
      rfl
    | some sub =>
      rw [Operate_cons (fun s : Mechanism α × List FSubjectHandle => s.1.Subjects)
          readNothing _ (st, log) a L sub () hsub rfl,
        Operate_cons Mechanism.Subjects readNothing _ st a L sub () hsub rfl]
      rw [show Tick.retargetCallbackLogged gen self a () (st, log)
          = (Tick.retargetCallback gen self a () st, log ++ [a]) from rfl, ih]
      simp

theorem retargetPass_clears (gen : Nat → α → α → α) (self : AMoveRandomly α)
    (st st' : Mechanism α) (hpass : Tick.retargetPass gen self st = some st') :
    Enchain (FFilter.Make [.FinishedMoving]) st' = [] := by
  obtain ⟨st2, h2, _, hlen, hs⟩ := retargetPass_spec gen self st
  rw [hpass] at h2
  cases h2
  apply List.eq_nil_iff_forall_not_mem.mpr
  intro h hh
  obtain ⟨sub', hsub', hm⟩ := (mem_Enchain _ _ _).mp hh
  have hlt : h < st.Subjects.length := by
    rw [← hlen]
    exact (List.getElem?_eq_some.mp hsub').1
  have hget := List.getElem?_eq_getElem hlt
  have := hs h _ hget
  rw [Matches_finished] at hm
  by_cases hf : (st.Subjects[h]).FinishedMoving = none
  · rw [this.1 hf] at hsub'
    cases hsub'
    rw [hf] at hm
    exact Bool.noConfusion hm
  · obtain ⟨k, _, _, hk⟩ := this.2 hf
    rw [hk] at hsub'
    cases hsub'
    exact Bool.noConfusion hm

end Logged

section Spawning
variable {α : Type} [Zero α] [Neg α]

theorem modify_length_append {β : Type} (f : β → β) (l : List β) (x : β) :
    (l ++ [x]).modify f l.length = l ++ [f x] := by
  induction l with
  | nil => rfl
  | cons a l ih => simp [List.modify_succ_cons, ih]

theorem body_eq (gen : Nat → α → α → α) (self : AMoveRandomly α) (st : Mechanism α) :
    BeginPlay.body gen self st
      = ⟨st.Subjects ++ [spawnedSubject gen self st.RandCalls], st.RandCalls + 4⟩ := by
  unfold BeginPlay.body
  simp only [SpawnSubject, randomVector, RandRange, SetTraitPosition, SetTraitDestination]
  rw [List.modify_modify_eq, modify_length_append]
  rfl

theorem loop_eq (gen : Nat → α → α → α) (self : AMoveRandomly α) :
    ∀ (n : Nat) (st : Mechanism α),
      BeginPlay.loop gen self n st
        = ⟨st.Subjects ++ (List.range n).map
            (fun j => spawnedSubject gen self (st.RandCalls + 4 * j)),
          st.RandCalls + 4 * n⟩ := by
  intro n
  induction n with
  | zero => intro st; simp [BeginPlay.loop]
  | succ n ih =>
    intro st
    rw [BeginPlay.loop, ih, body_eq, List.range_succ_eq_map]
    simp only [List.map_cons, List.map_map, List.append_assoc, List.singleton_append,
      Nat.mul_zero, Nat.add_zero, Mechanism.mk.injEq]
    constructor
    · congr 2
      apply List.map_congr_left
      intro j _
      simp only [Function.comp]
      congr 1
      omega
    · omega

theorem BeginPlay_eq (gen : Nat → α → α → α) (self : AMoveRandomly α) (st : Mechanism α) :
    BeginPlay gen self st
      = ⟨st.Subjects ++ (List.range self.NumSubjects.toNat).map
            (fun j => spawnedSubject gen self (st.RandCalls + 4 * j)),
          st.RandCalls + 4 * self.NumSubjects.toNat⟩ :=
  loop_eq gen self _ st

theorem BeginPlay_spawned (gen : Nat → α → α → α) (self : AMoveRandomly α) (st : Mechanism α)
    (h : FSubjectHandle) (sub : Subject α) (hnew : st.Subjects.length ≤ h)
    (hsub : (BeginPlay gen self st).Subjects[h]? = some sub) :
    ∃ k, sub = spawnedSubject gen self k := by
  rw [BeginPlay_eq] at hsub
  simp only at hsub
  rw [List.getElem?_append_right hnew, List.getElem?_map] at hsub
  cases hr : (List.range self.NumSubjects.toNat)[h - st.Subjects.length]? with
  | none => rw [hr] at hsub; exact Option.noConfusion hsub
  | some j =>
    rw [hr] at hsub
    exact ⟨_, (Option.some.inj hsub).symm⟩

end Spawning

section Between
variable {α : Type} [LinearOrderedField α]

theorem between_abs (W x : α) (h : min (-W) W ≤ x ∧ x ≤ max (-W) W) :
    -|W| ≤ x ∧ x ≤ |W| := by
  constructor
  · refine le_trans (le_min ?_ (neg_abs_le W)) h.1
    exact neg_le_neg (le_abs_self W)
  · exact le_trans h.2 (max_le (neg_le_abs W) (le_abs_self W))

theorem spawned_bounds (gen : Nat → α → α → α) (self : AMoveRandomly α)
    (hgen : ∀ k a b, min a b ≤ gen k a b ∧ gen k a b ≤ max a b) (k : Nat) :
    ∃ (p : FSubjectPosition α) (d : FDestination α),
      (spawnedSubject gen self k).Position = some p ∧
      (spawnedSubject gen self k).Destination = some d ∧
      FVector.InSquare |self.RandomWidth| p.Value ∧
      FVector.InSquare |self.RandomWidth| d.Value :=
  ⟨_, _, rfl, rfl, ⟨between_abs _ _ (hgen _ _ _), between_abs _ _ (hgen _ _ _), rfl⟩,
    ⟨between_abs _ _ (hgen _ _ _), between_abs _ _ (hgen _ _ _), rfl⟩⟩

end Between

section Invariants
variable {α : Type} [LinearOrderedField α]

theorem Tick_forall (sqrt : α → α) (gen : Nat → α → α → α) (self : AMoveRandomly α)
    (dt : α) (Q : Subject α → Prop)
    (hstay : ∀ sub, Q sub → (moveSubject sqrt self dt sub).FinishedMoving = none →
      Q (moveSubject sqrt self dt sub))
    (hret : ∀ sub k, Q sub → (moveSubject sqrt self dt sub).FinishedMoving ≠ none →
      Q (retargetedSubject gen self k (moveSubject sqrt self dt sub)))
    (st : Mechanism α) (hst : ∀ sub ∈ st.Subjects, Q sub) :
    ∃ st' : Mechanism α, Tick sqrt gen self dt st = some st' ∧
      st'.Subjects.length = st.Subjects.length ∧ ∀ sub ∈ st'.Subjects, Q sub := by
  obtain ⟨st', h1, _, hlen, hs⟩ := Tick_spec sqrt gen self dt st
  refine ⟨st', h1, hlen, ?_⟩
  intro sub' hmem
  obtain ⟨i, hi, hget⟩ := List.getElem_of_mem hmem
  have hlt : i < st.Subjects.length := hlen ▸ hi
  have hQ : Q st.Subjects[i] := hst _ (List.getElem_mem hlt)
  have hsub' : st'.Subjects[i]? = some sub' := by
    rw [List.getElem?_eq_getElem hi, hget]
  have := hs i _ (List.getElem?_eq_getElem hlt)
  by_cases hf : (moveSubject sqrt self dt st.Subjects[i]).FinishedMoving = none
  · rw [this.1 hf] at hsub'
    cases hsub'
    exact hstay _ hQ hf
  · obtain ⟨k, _, _, hk⟩ := this.2 hf
    rw [hk] at hsub'
    cases hsub'
    exact hret _ k hQ hf

theorem runTicks_forall (sqrt : α → α) (gen : Nat → α → α → α) (self : AMoveRandomly α)
    (Q : Subject α → Prop)
    (hstay : ∀ dt sub, Q sub → (moveSubject sqrt self dt sub).FinishedMoving = none →
      Q (moveSubject sqrt self dt sub))
    (hret : ∀ dt sub k, Q sub → (moveSubject sqrt self dt sub).FinishedMoving ≠ none →
      Q (retargetedSubject gen self k (moveSubject sqrt self dt sub))) :
    ∀ (dts : List α) (st : Mechanism α), (∀ sub ∈ st.Subjects, Q sub) →
      ∃ st' : Mechanism α, runTicks sqrt gen self dts st = some st' ∧
        st'.Subjects.length = st.Subjects.length ∧ ∀ sub ∈ st'.Subjects, Q sub := by
  intro dts
  induction dts with
  | nil => intro st hst; exact ⟨st, rfl, rfl, hst⟩
  | cons dt dts ih =>
    intro st hst
    obtain ⟨st1, h1, hl1, hQ1⟩ := Tick_forall sqrt gen self dt Q (hstay dt) (hret dt) st hst
    obtain ⟨st2, h2, hl2, hQ2⟩ := ih st1 hQ1
    refine ⟨st2, ?_, hl2.trans hl1, hQ2⟩
    rw [runTicks, h1]
    exact h2

theorem Moving_stay (sqrt : α → α) (self : AMoveRandomly α) (dt : α) (sub : Subject α)
    (hsub : sub.Moving = true)
    (hf : (moveSubject sqrt self dt sub).FinishedMoving = none) :
    (moveSubject sqrt self dt sub).Moving = true := by
  rcases sub with ⟨_ | p, _ | d, _ | f⟩ <;> simp [Subject.Moving] at hsub
  simp only [moveSubject, movedSubject] at hf ⊢
  split_ifs at hf ⊢
  rfl

theorem Moving_retarget (sqrt : α → α) (gen : Nat → α → α → α) (self : AMoveRandomly α)
    (dt : α) (sub : Subject α) (k : Nat) (hsub : sub.Moving = true) :
    (retargetedSubject gen self k (moveSubject sqrt self dt sub)).Moving = true := by
  rcases sub with ⟨_ | p, _ | d, _ | f⟩ <;> simp [Subject.Moving] at hsub
  simp only [moveSubject, movedSubject]
  split_ifs <;> rfl

theorem BeginPlay_mem (gen : Nat → α → α → α) (self : AMoveRandomly α) (sub : Subject α)
    (hmem : sub ∈ (BeginPlay gen self Mechanism.empty).Subjects) :
    ∃ k, sub = spawnedSubject gen self k := by
  obtain ⟨i, hi, hget⟩ := List.getElem_of_mem hmem
  exact BeginPlay_spawned gen self Mechanism.empty i sub (Nat.zero_le i)
    (by rw [List.getElem?_eq_getElem hi, hget])

end Invariants

section Reals

theorem real_move_distance (p d : FVector ℝ) (s : ℝ)
    (hpos : 0 < FVector.Dist Real.sqrt p d) :
    FVector.Dist Real.sqrt
        (FVector.add p (FVector.scale (FVector.Normalize Real.sqrt (FVector.sub d p)) s)) d
      = |FVector.Dist Real.sqrt p d - s| := by
  have hD : FVector.Dist Real.sqrt p d = Real.sqrt (FVector.SizeSquared (FVector.sub d p)) :=
    rfl
  set D := FVector.Dist Real.sqrt p d with hDdef
  have hQ : 0 ≤ FVector.SizeSquared (FVector.sub d p) := by
    exact add_nonneg (add_nonneg (mul_self_nonneg _) (mul_self_nonneg _)) (mul_self_nonneg _)
  have hDD : D * D = FVector.SizeSquared (FVector.sub d p) := by
    rw [hD]
    exact Real.mul_self_sqrt hQ
  have hne : D ≠ 0 := ne_of_gt hpos
  have key : FVector.SizeSquared (FVector.sub d
      (FVector.add p (FVector.scale (FVector.Normalize Real.sqrt (FVector.sub d p)) s)))
      = (D - s) * (D - s) := by
    unfold FVector.Normalize
    rw [← hD]
    simp only [FVector.SizeSquared, FVector.sub, FVector.add, FVector.scale] at hDD ⊢
    have e2 : ∀ a b : ℝ, b - (a + (b - a) * D⁻¹ * s) = (b - a) * ((D - s) / D) := by
      intro a b
      field_simp
      ring
    rw [e2, e2, e2]
    have : ((D - s) / D) * ((D - s) / D) * (D * D) = (D - s) * (D - s) := by
      field_simp
    rw [← this, hDD]
    ring
  unfold FVector.Dist at hDdef ⊢
  rw [key]
  exact Real.sqrt_mul_self_eq_abs _

theorem real_move_beyond (p d : FVector ℝ) (s : ℝ)
    (hpos : 0 < FVector.Dist Real.sqrt p d) :
    FVector.add p (FVector.scale (FVector.Normalize Real.sqrt (FVector.sub d p)) s)
      = FVector.add d (FVector.scale (FVector.Normalize Real.sqrt (FVector.sub d p))
          (s - FVector.Dist Real.sqrt p d)) := by
  have hD : FVector.Dist Real.sqrt p d = Real.sqrt (FVector.SizeSquared (FVector.sub d p)) :=
    rfl
  have hne : FVector.Dist Real.sqrt p d ≠ 0 := ne_of_gt hpos
  unfold FVector.Normalize
  rw [← hD]
  generalize FVector.Dist Real.sqrt p d = D at hne
  simp only [FVector.sub, FVector.add, FVector.scale, FVector.mk.injEq]
  refine ⟨?_, ?_, ?_⟩ <;> field_simp <;> ring

end Reals

section RealExample

theorem real_Dist_50 : FVector.Dist Real.sqrt (⟨0, 0, 0⟩ : FVector ℝ) ⟨50, 0, 0⟩ = 50 := by
  have h : FVector.SizeSquared (FVector.sub (⟨50, 0, 0⟩ : FVector ℝ) ⟨0, 0, 0⟩)
      = 50 * 50 := by
    simp only [FVector.SizeSquared, FVector.sub]
    norm_num
  unfold FVector.Dist
  rw [h]
  exact Real.sqrt_mul_self (by norm_num)

end RealExample

section OscillationLemmas
variable {α : Type} [LinearOrderedField α]

theorem oscillating_Dist (sqrt : α → α) (hsqrt : sqrt 2500 = 50) (n : Nat) :
    FVector.Dist sqrt (⟨if n % 2 = 0 then 0 else 100, 0, 0⟩ : FVector α) ⟨50, 0, 0⟩
      = 50 := by
  have h : FVector.SizeSquared (FVector.sub (⟨50, 0, 0⟩ : FVector α)
      ⟨if n % 2 = 0 then 0 else 100, 0, 0⟩) = 2500 := by
    simp only [FVector.SizeSquared, FVector.sub]
    split_ifs <;> norm_num
  unfold FVector.Dist
  rw [h, hsqrt]

theorem oscillating_moveSubject (sqrt : α → α) (hsqrt : sqrt 2500 = 50) (n : Nat) :
    moveSubject sqrt ⟨10, 100, 250, 10⟩ 1
        ⟨some ⟨⟨if n % 2 = 0 then 0 else 100, 0, 0⟩⟩, some ⟨⟨50, 0, 0⟩⟩, none⟩
      = ⟨some ⟨⟨if (n + 1) % 2 = 0 then 0 else 100, 0, 0⟩⟩, some ⟨⟨50, 0, 0⟩⟩, none⟩ := by
  have hD := oscillating_Dist sqrt hsqrt n
  have hfar : FVector.Dist sqrt (⟨if n % 2 = 0 then 0 else 100, 0, 0⟩ : FVector α)
      ⟨50, 0, 0⟩ > 10 := by
    rw [hD]
    norm_num
  have hN : FVector.Normalize sqrt (FVector.sub (⟨50, 0, 0⟩ : FVector α)
      ⟨if n % 2 = 0 then 0 else 100, 0, 0⟩)
      = FVector.scale (FVector.sub (⟨50, 0, 0⟩ : FVector α)
          ⟨if n % 2 = 0 then 0 else 100, 0, 0⟩) (50 : α)⁻¹ := by
    unfold FVector.Normalize
    unfold FVector.Dist at hD
    rw [hD]
  simp only [moveSubject, movedSubject, hfar, if_true, hN]
  rcases Nat.mod_two_eq_zero_or_one n with h0 | h1
  · have h' : (n + 1) % 2 = 1 := by omega
    simp only [h0, h', if_true, FVector.add, FVector.scale, FVector.sub]
    norm_num
  · have h' : (n + 1) % 2 = 0 := by omega
    simp only [h1, h', if_true, FVector.add, FVector.scale, FVector.sub]
    norm_num

theorem oscillating_movePass (sqrt : α → α) (hsqrt : sqrt 2500 = 50) (n : Nat) :
    Tick.movePass sqrt ⟨10, 100, 250, 10⟩ 1 (Example.oscillating n)
      = some (Example.oscillating (n + 1)) := by
  unfold Example.oscillating
  rw [movePass_single, oscillating_moveSubject sqrt hsqrt n]

theorem oscillating_retargetPass (gen : Nat → α → α → α) (n : Nat) :
    Tick.retargetPass gen ⟨10, 100, 250, 10⟩ (Example.oscillating n)
      = some (Example.oscillating n) := by
  unfold Example.oscillating
  rw [retargetPass_single]
  rfl

theorem oscillating_Tick (sqrt : α → α) (gen : Nat → α → α → α) (hsqrt : sqrt 2500 = 50)
    (n : Nat) :
    Tick sqrt gen ⟨10, 100, 250, 10⟩ 1 (Example.oscillating n)
      = some (Example.oscillating (n + 1)) := by
  rw [Tick_eq, oscillating_movePass sqrt hsqrt n]
  exact oscillating_retargetPass gen (n + 1)

theorem oscillating_runTicks (sqrt : α → α) (gen : Nat → α → α → α)
    (hsqrt : sqrt 2500 = 50) :
    ∀ n m : Nat, runTicks sqrt gen ⟨10, 100, 250, 10⟩ (List.replicate n 1)
        (Example.oscillating m) = some (Example.oscillating (m + n)) := by
  intro n
  induction n with
  | zero => intro m; rfl
  | succ n ih =>
    intro m
    rw [List.replicate_succ, runTicks, oscillating_Tick sqrt gen hsqrt m]
    simp only [Option.some_bind]
    rw [ih (m + 1)]
    congr 2
    omega

end OscillationLemmas

section Overflow

end Overflow

/-! ## The claims -/

section Claims
variable {α : Type} [LinearOrderedField α]

/-- C1: in the move pass of `Tick`, a subject that holds a position `p` and a destination
`d` when the pass starts keeps its destination; if the distance from `p` to `d` is above
`MinDistanceFroMDestination` its position becomes `p + unit(d - p) * (DeltaSeconds *
MoveSpeed)` and its marker is as it was, otherwise its position is still `p` and it holds
`FinishedMoving`.  The pass returns a state. -/
theorem C1_move_pass (sqrt : α → α) (self : AMoveRandomly α) (DeltaSeconds : α)
    (st : Mechanism α) (h : FSubjectHandle) (sub : Subject α)
    (p : FSubjectPosition α) (d : FDestination α)
    (hsub : st.Subjects[h]? = some sub) (hp : sub.Position = some p)
    (hd : sub.Destination = some d) :
    ∃ (st' : Mechanism α) (sub' : Subject α),
      Tick.movePass sqrt self DeltaSeconds st = some st' ∧
      st'.Subjects[h]? = some sub' ∧ sub'.Destination = some d ∧
      (FVector.Dist sqrt p.Value d.Value > self.MinDistanceFroMDestination →
        sub'.Position = some ⟨FVector.add p.Value (FVector.scale
          (FVector.Normalize sqrt (FVector.sub d.Value p.Value))
          (DeltaSeconds * self.MoveSpeed))⟩ ∧
        sub'.FinishedMoving = sub.FinishedMoving) ∧
      (¬ FVector.Dist sqrt p.Value d.Value > self.MinDistanceFroMDestination →
        sub'.Position = some p ∧ sub'.FinishedMoving = some ⟨⟩) := by
  obtain ⟨st', h1, _, _, hs⟩ := movePass_spec sqrt self DeltaSeconds st
  obtain ⟨sp, sd, sf⟩ := sub
  simp only at hp hd
  subst hp hd
  refine ⟨st', _, h1, hs h _ hsub, ?_, ?_, ?_⟩
  · simp only [moveSubject, movedSubject]
    split_ifs <;> rfl
  · intro hfar
    simp only [moveSubject, movedSubject, hfar, if_true, and_self]
  · intro hnear
    simp only [moveSubject, movedSubject, hnear, if_false, and_self]

/-- Witness of C1: the subject of `Example.start`, 100 away from its destination, is moved
onto it by a pass of one second. -/
theorem C1_move_pass_witness :
    ∃ (st' : Mechanism ℚ) (sub' : Subject ℚ),
      Tick.movePass Rat.sqrt Example.actor 1 Example.start = some st' ∧
      st'.Subjects[0]? = some sub' ∧ sub'.Destination = some ⟨⟨100, 0, 0⟩⟩ ∧
      (FVector.Dist Rat.sqrt (⟨0, 0, 0⟩ : FVector ℚ) ⟨100, 0, 0⟩
          > Example.actor.MinDistanceFroMDestination →
        sub'.Position = some ⟨FVector.add ⟨0, 0, 0⟩ (FVector.scale
          (FVector.Normalize Rat.sqrt (FVector.sub ⟨100, 0, 0⟩ ⟨0, 0, 0⟩))
          (1 * Example.actor.MoveSpeed))⟩ ∧
        sub'.FinishedMoving = none) ∧
      (¬ FVector.Dist Rat.sqrt (⟨0, 0, 0⟩ : FVector ℚ) ⟨100, 0, 0⟩
          > Example.actor.MinDistanceFroMDestination →
        sub'.Position = some ⟨⟨0, 0, 0⟩⟩ ∧ sub'.FinishedMoving = some ⟨⟩) :=
  C1_move_pass Rat.sqrt Example.actor 1 Example.start 0
    ⟨some ⟨⟨0, 0, 0⟩⟩, some ⟨⟨100, 0, 0⟩⟩, none⟩ ⟨⟨0, 0, 0⟩⟩ ⟨⟨100, 0, 0⟩⟩ rfl rfl rfl

/-- C2: arrival is handled within one tick.  A subject that holds a position `p` and a
destination `d` at most `MinDistanceFroMDestination` apart when `Tick` starts does not
hold `FinishedMoving` when that `Tick` ends, its position is still `p`, and its
destination is the vector of two numbers drawn during this tick, with Z = 0.  The tick
returns a state. -/
theorem C2_arrival_within_tick (sqrt : α → α) (gen : Nat → α → α → α)
    (self : AMoveRandomly α) (DeltaSeconds : α)
    (st : Mechanism α) (h : FSubjectHandle) (sub : Subject α)
    (p : FSubjectPosition α) (d : FDestination α)
    (hsub : st.Subjects[h]? = some sub) (hp : sub.Position = some p)
    (hd : sub.Destination = some d)
    (hnear : FVector.Dist sqrt p.Value d.Value ≤ self.MinDistanceFroMDestination) :
    ∃ (st' : Mechanism α) (k : Nat),
      Tick sqrt gen self DeltaSeconds st = some st' ∧
      st.RandCalls ≤ k ∧ k + 2 ≤ st'.RandCalls ∧
      st'.Subjects[h]? = some ⟨some p,
        some ⟨⟨gen k (-self.RandomWidth) self.RandomWidth,
          gen (k + 1) (-self.RandomWidth) self.RandomWidth, 0⟩⟩, none⟩ := by
  obtain ⟨st', h1, _, _, hs⟩ := Tick_spec sqrt gen self DeltaSeconds st
  obtain ⟨sp, sd, sf⟩ := sub
  simp only at hp hd
  subst hp hd
  have hm : moveSubject sqrt self DeltaSeconds ⟨some p, some d, sf⟩
      = ⟨some p, some d, some ⟨⟩⟩ := by
    simp only [moveSubject, movedSubject, gt_iff_lt, not_lt.mpr hnear, if_false]
  have hfin : (moveSubject sqrt self DeltaSeconds ⟨some p, some d, sf⟩).FinishedMoving
      ≠ none := by
    rw [hm]
    exact Option.some_ne_none _
  obtain ⟨k, hk1, hk2, hk3⟩ := (hs h _ hsub).2 hfin
  refine ⟨st', k, h1, hk1, hk2, ?_⟩
  rw [hk3, hm]
  rfl

/-- Witness of C2: the subject of `Example.start` reaches (100, 0, 0) in the first tick;
in the second tick it is flagged by the move pass, and at the end of that tick it is
re-targeted and unflagged. -/
theorem C2_arrival_within_tick_witness :
    Tick Rat.sqrt Example.gen Example.actor 1 Example.start = some Example.arrived ∧
    Tick.movePass Rat.sqrt Example.actor 1 Example.arrived
      = some ⟨[⟨some ⟨⟨100, 0, 0⟩⟩, some ⟨⟨100, 0, 0⟩⟩, some ⟨⟩⟩], 0⟩ ∧
    ∃ (st' : Mechanism ℚ) (k : Nat),
      Tick Rat.sqrt Example.gen Example.actor 1 Example.arrived = some st' ∧
      Example.arrived.RandCalls ≤ k ∧ k + 2 ≤ st'.RandCalls ∧
      st'.Subjects[0]? = some ⟨some ⟨⟨100, 0, 0⟩⟩,
        some ⟨⟨Example.gen k (-Example.actor.RandomWidth) Example.actor.RandomWidth,
          Example.gen (k + 1) (-Example.actor.RandomWidth) Example.actor.RandomWidth, 0⟩⟩,
        none⟩ := by
  have hnear : FVector.Dist Rat.sqrt (⟨100, 0, 0⟩ : FVector ℚ) ⟨100, 0, 0⟩
      ≤ Example.actor.MinDistanceFroMDestination := by
    rw [Dist_self]
    norm_num [Example.actor, AMoveRandomly.defaults]
  refine ⟨Tick_start, ?_, C2_arrival_within_tick Rat.sqrt Example.gen Example.actor 1
    Example.arrived 0 ⟨some ⟨⟨100, 0, 0⟩⟩, some ⟨⟨100, 0, 0⟩⟩, none⟩ ⟨⟨100, 0, 0⟩⟩
    ⟨⟨100, 0, 0⟩⟩ rfl rfl rfl hnear⟩
  unfold Example.arrived
  rw [movePass_single]
  simp only [moveSubject, movedSubject, gt_iff_lt, not_lt.mpr hnear, if_false]

/-- C3: snapshot iteration in the re-target pass of `Tick`.  For every state the pass
returns, and its callback is invoked exactly once for each subject that held
`FinishedMoving` when the pass started and never for another handle, although every
invocation removes `FinishedMoving` from the subject it visits: after the pass no subject
matches the filter of the pass. -/
theorem C3_retarget_visits_snapshot_once (gen : Nat → α → α → α) (self : AMoveRandomly α)
    (st : Mechanism α) :
    ∃ (st' : Mechanism α) (log : List FSubjectHandle),
      Tick.retargetPassLogged gen self st = some (st', log) ∧
      Tick.retargetPass gen self st = some st' ∧
      (∀ h : FSubjectHandle,
        log.count h = if st.Has h .FinishedMoving = true then 1 else 0) ∧
      Enchain (FFilter.Make [.FinishedMoving]) st' = [] := by
  obtain ⟨st', h1, _, _, _⟩ := retargetPass_spec gen self st
  refine ⟨st', Enchain (FFilter.Make [.FinishedMoving]) st, ?_, h1, ?_,
    retargetPass_clears gen self st st' h1⟩
  · unfold Tick.retargetPassLogged
    unfold Tick.retargetPass at h1
    simp only [Operate_logged, h1, Option.map_some', List.nil_append]
  · intro h
    rw [List.count_eq_of_nodup (Enchain_nodup _ st)]
    by_cases hh : h ∈ Enchain (FFilter.Make [.FinishedMoving]) st
    · rw [if_pos hh, if_pos ((Has_finished st h).mpr hh)]
    · rw [if_neg hh, if_neg (fun e => hh ((Has_finished st h).mp e))]

/-- C4, as stated, fails for a negative width: with `RandomWidth = -5`, one subject and a
generator that returns its first argument (a value between its two arguments), `BeginPlay`
sets a position whose X is 5, which is not in the interval from `-RandomWidth = 5` to
`RandomWidth = -5`. -/
theorem C4_spawn_bounds_counterexample :
    (∀ (k : Nat) (a b : ℚ), min a b ≤ Example.gen k a b ∧ Example.gen k a b ≤ max a b) ∧
    ∃ p : FSubjectPosition ℚ,
      ((BeginPlay Example.gen Example.negativeWidth Mechanism.empty).Subjects[0]?).bind
          Subject.Position = some p ∧
      p.Value.X = 5 ∧
      ¬ FVector.InSquare Example.negativeWidth.RandomWidth p.Value := by
  refine ⟨fun k a b => ⟨min_le_left a b, le_max_left a b⟩, ⟨⟨5, 5, 0⟩⟩, ?_, rfl, ?_⟩
  · rw [BeginPlay_eq]
    simp [Example.negativeWidth, Mechanism.empty, spawnedSubject, Example.gen, List.range_succ]
  · norm_num [Example.negativeWidth, FVector.InSquare]

/-- C4, amended: for every `NumSubjects` and every `RandomWidth = W`, when `RandRange`
returns a value between its two arguments, every position and every destination that
`BeginPlay` sets on a spawned subject has X and Y between `-|W|` and `|W|` and Z equal to
0; so for `0 ≤ W` they have X and Y between `-W` and `W` and Z equal to 0. -/
theorem C4_spawn_bounds (gen : Nat → α → α → α) (self : AMoveRandomly α) (st : Mechanism α)
    (hgen : ∀ k a b, min a b ≤ gen k a b ∧ gen k a b ≤ max a b)
    (h : FSubjectHandle) (sub : Subject α) (hnew : st.Subjects.length ≤ h)
    (hsub : (BeginPlay gen self st).Subjects[h]? = some sub) :
    ∃ (p : FSubjectPosition α) (d : FDestination α),
      sub.Position = some p ∧ sub.Destination = some d ∧
      FVector.InSquare |self.RandomWidth| p.Value ∧
      FVector.InSquare |self.RandomWidth| d.Value ∧
      (0 ≤ self.RandomWidth →
        FVector.InSquare self.RandomWidth p.Value ∧
        FVector.InSquare self.RandomWidth d.Value) := by
  obtain ⟨k, rfl⟩ := BeginPlay_spawned gen self st h sub hnew hsub
  obtain ⟨p, d, hp, hd, h1, h2⟩ := spawned_bounds gen self hgen k
  refine ⟨p, d, hp, hd, h1, h2, ?_⟩
  intro hW
  rw [abs_of_nonneg hW] at h1 h2
  exact ⟨h1, h2⟩

/-- Witness of C4: the bounds hold for the first subject spawned from the empty world with
the tunables of the header and the generator that returns its first argument. -/
theorem C4_spawn_bounds_witness :
    ∃ (p : FSubjectPosition ℚ) (d : FDestination ℚ),
      (spawnedSubject Example.gen Example.actor 0).Position = some p ∧
      (spawnedSubject Example.gen Example.actor 0).Destination = some d ∧
      FVector.InSquare |Example.actor.RandomWidth| p.Value ∧
      FVector.InSquare |Example.actor.RandomWidth| d.Value ∧
      (0 ≤ Example.actor.RandomWidth →
        FVector.InSquare Example.actor.RandomWidth p.Value ∧
        FVector.InSquare Example.actor.RandomWidth d.Value) :=
  C4_spawn_bounds Example.gen Example.actor Mechanism.empty
    (fun k a b => ⟨min_le_left a b, le_max_left a b⟩) 0
    (spawnedSubject Example.gen Example.actor 0) (Nat.le_refl 0)
    (by rw [BeginPlay_eq]; simp [Example.actor, AMoveRandomly.defaults, Mechanism.empty,
      List.range_succ_eq_map])

/-- C5: from the empty world `BeginPlay` creates exactly `NumSubjects` subjects (none when
`NumSubjects ≤ 0`); every one of them holds a position and a destination and does not hold
`FinishedMoving`. -/
theorem C5_spawn_count_and_state (gen : Nat → α → α → α) (self : AMoveRandomly α) :
    ((BeginPlay gen self Mechanism.empty).Subjects.length : Int) = max self.NumSubjects 0 ∧
    (self.NumSubjects ≤ 0 → (BeginPlay gen self Mechanism.empty).Subjects = []) ∧
    ∀ h : FSubjectHandle, h < (BeginPlay gen self Mechanism.empty).Subjects.length →
      ∃ (p : FSubjectPosition α) (d : FDestination α),
        (BeginPlay gen self Mechanism.empty).Subjects[h]? = some ⟨some p, some d, none⟩ := by
  refine ⟨?_, ?_, ?_⟩
  · rw [BeginPlay_eq]
    simp [Mechanism.empty, Int.toNat_eq_max]
  · intro hle
    rw [BeginPlay_eq, Int.toNat_eq_zero.mpr hle]
    rfl
  · intro h hlt
    obtain ⟨k, hk⟩ := BeginPlay_spawned gen self Mechanism.empty h _ (Nat.zero_le h)
      (List.getElem?_eq_getElem hlt)
    rw [List.getElem?_eq_getElem hlt, hk]
    exact ⟨_, _, rfl⟩

/-- C6: the state-machine invariant.  After `BeginPlay` from the empty world and any number
of complete ticks, with any frame times and any generator, the run has returned a state,
the subjects are the ones `BeginPlay` created, and every subject is in the state `Moving`:
it holds a position and a destination and does not hold `FinishedMoving`. -/
theorem C6_all_moving_between_ticks (sqrt : α → α) (gen : Nat → α → α → α)
    (self : AMoveRandomly α) (dts : List α) :
    ∃ st' : Mechanism α,
      runTicks sqrt gen self dts (BeginPlay gen self Mechanism.empty) = some st' ∧
      st'.Subjects.length = (BeginPlay gen self Mechanism.empty).Subjects.length ∧
      ∀ sub ∈ st'.Subjects, sub.Moving = true := by
  apply runTicks_forall sqrt gen self (fun sub => sub.Moving = true)
    (fun dt sub h hf => Moving_stay sqrt self dt sub h hf)
    (fun dt sub k h _ => Moving_retarget sqrt gen self dt sub k h)
  intro sub hmem
  obtain ⟨k, rfl⟩ := BeginPlay_mem gen self sub hmem
  rfl

/-- C8: no overshoot clamping, over the reals.  For a subject whose distance `D` to its
destination is above `MinDistanceFroMDestination` and positive, and for
`s = DeltaSeconds * MoveSpeed`, the distance to the destination after the move pass is
`|D - s|`; when `s > D` it is `s - D`, and the new position is the destination plus
`s - D` times the unit vector from the old position to the destination: it lies beyond the
destination, it is not clamped to it. -/
theorem C8_no_overshoot_clamp (self : AMoveRandomly ℝ) (DeltaSeconds : ℝ)
    (st : Mechanism ℝ) (h : FSubjectHandle) (sub : Subject ℝ)
    (p : FSubjectPosition ℝ) (d : FDestination ℝ)
    (hsub : st.Subjects[h]? = some sub) (hp : sub.Position = some p)
    (hd : sub.Destination = some d)
    (hfar : FVector.Dist Real.sqrt p.Value d.Value > self.MinDistanceFroMDestination)
    (hpos : FVector.Dist Real.sqrt p.Value d.Value > 0) :
    ∃ (st' : Mechanism ℝ) (p' : FSubjectPosition ℝ),
      Tick.movePass Real.sqrt self DeltaSeconds st = some st' ∧
      st'.Subjects[h]? = some ⟨some p', some d, sub.FinishedMoving⟩ ∧
      FVector.Dist Real.sqrt p'.Value d.Value
        = |FVector.Dist Real.sqrt p.Value d.Value - DeltaSeconds * self.MoveSpeed| ∧
      (DeltaSeconds * self.MoveSpeed > FVector.Dist Real.sqrt p.Value d.Value →
        FVector.Dist Real.sqrt p'.Value d.Value
          = DeltaSeconds * self.MoveSpeed - FVector.Dist Real.sqrt p.Value d.Value ∧
        p'.Value = FVector.add d.Value (FVector.scale
          (FVector.Normalize Real.sqrt (FVector.sub d.Value p.Value))
          (DeltaSeconds * self.MoveSpeed - FVector.Dist Real.sqrt p.Value d.Value))) := by
  obtain ⟨st', h1, _, _, hs⟩ := movePass_spec Real.sqrt self DeltaSeconds st
  obtain ⟨sp, sd, sf⟩ := sub
  simp only at hp hd
  subst hp hd
  have hm := hs h _ hsub
  simp only [moveSubject, movedSubject, hfar, if_true] at hm
  refine ⟨st', _, h1, hm, real_move_distance p.Value d.Value _ hpos, ?_⟩
  intro hover
  refine ⟨?_, real_move_beyond p.Value d.Value _ hpos⟩
  rw [real_move_distance p.Value d.Value _ hpos, abs_sub_comm]
  exact abs_of_pos (sub_pos.mpr hover)

/-- Witness of C8: over the reals, a subject at the origin with destination (50, 0, 0),
threshold 10, speed 100 and a frame time of one second. -/
theorem C8_no_overshoot_clamp_witness :
    ∃ (st' : Mechanism ℝ) (p' : FSubjectPosition ℝ),
      Tick.movePass Real.sqrt AMoveRandomly.defaults 1
          ⟨[⟨some ⟨⟨0, 0, 0⟩⟩, some ⟨⟨50, 0, 0⟩⟩, none⟩], 0⟩ = some st' ∧
      st'.Subjects[0]? = some ⟨some p', some ⟨⟨50, 0, 0⟩⟩, none⟩ ∧
      FVector.Dist Real.sqrt p'.Value ⟨50, 0, 0⟩
        = |FVector.Dist Real.sqrt (⟨0, 0, 0⟩ : FVector ℝ) ⟨50, 0, 0⟩
            - 1 * (AMoveRandomly.defaults : AMoveRandomly ℝ).MoveSpeed| ∧
      (1 * (AMoveRandomly.defaults : AMoveRandomly ℝ).MoveSpeed
          > FVector.Dist Real.sqrt (⟨0, 0, 0⟩ : FVector ℝ) ⟨50, 0, 0⟩ →
        FVector.Dist Real.sqrt p'.Value ⟨50, 0, 0⟩
          = 1 * (AMoveRandomly.defaults : AMoveRandomly ℝ).MoveSpeed
            - FVector.Dist Real.sqrt (⟨0, 0, 0⟩ : FVector ℝ) ⟨50, 0, 0⟩ ∧
        p'.Value = FVector.add ⟨50, 0, 0⟩ (FVector.scale
          (FVector.Normalize Real.sqrt (FVector.sub ⟨50, 0, 0⟩ ⟨0, 0, 0⟩))
          (1 * (AMoveRandomly.defaults : AMoveRandomly ℝ).MoveSpeed
            - FVector.Dist Real.sqrt (⟨0, 0, 0⟩ : FVector ℝ) ⟨50, 0, 0⟩))) :=
  C8_no_overshoot_clamp AMoveRandomly.defaults 1
    ⟨[⟨some ⟨⟨0, 0, 0⟩⟩, some ⟨⟨50, 0, 0⟩⟩, none⟩], 0⟩ 0
    ⟨some ⟨⟨0, 0, 0⟩⟩, some ⟨⟨50, 0, 0⟩⟩, none⟩ ⟨⟨0, 0, 0⟩⟩ ⟨⟨50, 0, 0⟩⟩ rfl rfl rfl
    (by rw [real_Dist_50]; norm_num [AMoveRandomly.defaults])
    (by rw [real_Dist_50]; norm_num)

/-- C9: a subject can move forever without arriving.  With threshold 10, speed 100 and a
frame time of one second, a subject at the origin whose destination is (50, 0, 0) is,
after every number `n` of ticks, at the origin (`n` even) or at (100, 0, 0) (`n` odd), at
distance exactly 50 from its destination, which is still (50, 0, 0), and no random number
has been drawn; in the next tick it does not hold `FinishedMoving` after the move pass
nor after the re-target pass.  The square root is exact at 2500. -/
theorem C9_moves_forever (sqrt : α → α) (gen : Nat → α → α → α) (hsqrt : sqrt 2500 = 50)
    (n : Nat) :
    runTicks sqrt gen ⟨10, 100, 250, 10⟩ (List.replicate n 1) (Example.oscillating 0)
      = some (Example.oscillating n) ∧
    FVector.Dist sqrt (⟨if n % 2 = 0 then 0 else 100, 0, 0⟩ : FVector α) ⟨50, 0, 0⟩ = 50 ∧
    Tick.movePass sqrt ⟨10, 100, 250, 10⟩ 1 (Example.oscillating n)
      = some (Example.oscillating (n + 1)) ∧
    Tick.retargetPass gen ⟨10, 100, 250, 10⟩ (Example.oscillating (n + 1))
      = some (Example.oscillating (n + 1)) ∧
    (Example.oscillating n : Mechanism α).Has 0 .FinishedMoving = false := by
  refine ⟨?_, oscillating_Dist sqrt hsqrt n, oscillating_movePass sqrt hsqrt n,
    oscillating_retargetPass gen (n + 1), rfl⟩
  have := oscillating_runTicks sqrt gen hsqrt n 0
  rwa [Nat.zero_add] at this

/-- Witness of C9: over the rationals with `Rat.sqrt`, after three ticks. -/
theorem C9_moves_forever_witness :
    runTicks Rat.sqrt Example.gen ⟨10, 100, 250, 10⟩ (List.replicate 3 1)
        (Example.oscillating 0)
      = some (Example.oscillating 3) ∧
    FVector.Dist Rat.sqrt (⟨if 3 % 2 = 0 then 0 else 100, 0, 0⟩ : FVector ℚ) ⟨50, 0, 0⟩
      = 50 ∧
    Tick.movePass Rat.sqrt ⟨10, 100, 250, 10⟩ 1 (Example.oscillating 3)
      = some (Example.oscillating (3 + 1)) ∧
    Tick.retargetPass Example.gen ⟨10, 100, 250, 10⟩ (Example.oscillating (3 + 1))
      = some (Example.oscillating (3 + 1)) ∧
    (Example.oscillating 3 : Mechanism ℚ).Has 0 .FinishedMoving = false :=
  C9_moves_forever Rat.sqrt Example.gen
    (by rw [show (2500 : ℚ) = 50 * 50 by norm_num]; exact sqrt_sq_rat 50 (by norm_num)) 3

end Claims
end MoveRandomly
